import Mathlib

/-!
Shallow embedding of `carousel/release_robot.py` and proofs about its two
functions, `get_recent_tags` and `get_current_version`.

Modelling choices, each justified against the Python source:

* Machine-level git objects are represented by an inductive `GitObject`.
  Only four dulwich object kinds matter: `Commit` (has `commit_time`, `id`,
  `author` attributes), `Tag` (the only kind with an `.object` attribute,
  carrying `tag_time`, `id`, `name` and a target SHA), `Tree` and `Blob`
  (which have none of those attributes, so attribute access on them raises
  `AttributeError`).

* A repository is its ordered ref dictionary (`get_refs` returns an
  insertion-ordered dict, modelled as an association list) plus an object
  store (`get_object`, modelled as an association list keyed by SHA; a
  missing SHA makes dulwich raise `KeyError`).

* `datetime.datetime(*time.gmtime(t)[:6])` is a strictly monotone injection
  on integer seconds (git timestamps are integers and the conversion keeps
  the full seconds resolution), so records store the raw seconds `Int` and
  all comparisons of the derived datetimes coincide with comparisons of the
  stored integers.

* Python's `sorted(..., key=lambda tag: tag[1][0], reverse=True)` is the
  stable descending sort by the stored time.  A stable sort by a key is
  uniquely determined, and `List.insertionSort descRel` with
  `descRel a b := b.time ≤ a.time` realises it: an element is inserted
  before exactly the already-placed (later-encountered) elements of
  strictly smaller key, so equal keys keep encounter order.

* Uncaught Python exceptions are the `Except RobotError` error channel;
  the exceptions that `get_current_version` itself catches and logs are the
  `PyExc`/`LogEvent` values.  The `logger` argument is `true` when a
  diagnostic sink is supplied and the returned list holds what was logged.

* The `pattern` argument of `get_current_version` can be an arbitrary
  regular expression; it is modelled by `RegexModel`, the function giving
  for each subject string the result of `re.match`: `none` when the match
  fails, otherwise the list of capture groups `group(1), group(2), ...`
  (each `none` when the group did not participate).  The default `PATTERN`
  regex `[ a-zA-Z_\-]*([\d\.]+[\-\w\.]*)` is implemented concretely by
  `matchDefault`; character classes are the ASCII reading of the pattern
  (all inputs in the claims are ASCII, and the three facts the proofs use -
  the prefix class and `[\d\.]` are disjoint, and `[\d\.]` is contained in
  `[\-\w\.]` - also hold for the full Unicode classes).  Because the prefix
  class `[ a-zA-Z_\-]` and `[\d\.]` share no character, the backtracking
  search of `re.match` reduces to: drop the maximal prefix-class run, then
  the group is the maximal `[\d\.]` run (non-empty, else no match) followed
  by the maximal `[\-\w\.]` run.
-/

namespace ReleaseRobot

/-- Python exceptions raised by `matches.group(1)` that `get_current_version`
catches and hands to the logger. -/
inductive PyExc where
  | indexError
  | attributeError
  deriving DecidableEq

/-- A diagnostic-sink event: `logger.exception(err)` with the caught
exception. -/
inductive LogEvent where
  | exception : PyExc → LogEvent
  deriving DecidableEq

/-- Uncaught Python exceptions that propagate out of the embedded
functions. -/
inductive RobotError where
  | notGitRepository
  | keyError
  | attributeError
  | valueError
  deriving DecidableEq

/-- A dulwich `Commit` object: the attributes `release_robot.py` reads. -/
structure CommitObj where
  commit_time : Int
  id : String
  author : String
  deriving DecidableEq

/-- A dulwich `Tag` (annotated tag) object: the attributes read, plus the
SHA of the wrapped target (`obj.object` is the pair (class, target SHA)). -/
structure TagObjData where
  tag_time : Int
  id : String
  name : String
  target : Nat
  deriving DecidableEq

/-- The dulwich object kinds relevant to the code.  Only `tag` has an
`.object` attribute; only `commit` has `commit_time`, `id`-as-commit and
`author`; `tree` and `blob` (carrying just their id) have neither. -/
inductive GitObject where
  | commit : CommitObj → GitObject
  | tag : TagObjData → GitObject
  | tree : String → GitObject
  | blob : String → GitObject
  deriving DecidableEq

/-- A repository: the insertion-ordered ref dict from `get_refs` (decoded
name paired with target SHA) and the object store behind `get_object`. -/
structure Repo where
  refs : List (String × Nat)
  objects : List (Nat × GitObject)

/-- `project.get_object(sha)`: `none` models dulwich raising `KeyError`. -/
def Repo.get_object (r : Repo) (sha : Nat) : Option GitObject :=
  r.objects.lookup sha

/-- The record stored as `tags[tag]`: the list
`[datetime, commit.id, commit.author, tag_meta]` from the source, with the
datetime kept as raw seconds (see the header). -/
structure TagRecord where
  commit_time : Int
  commit_id : String
  author : String
  tag_meta : Option (Int × String × String)
  deriving DecidableEq

/-- Python's substring test `needle in hay` on character lists. -/
def hasSub (needle : List Char) : List Char → Bool
  | [] => needle.isEmpty
  | c :: rest => needle.isPrefixOf (c :: rest) || hasSub needle rest

/-- Python's `key.rsplit('/', 1)` followed by the two-element unpacking
`_, tag = ...`: splits at the last `'/'`; `none` models the `ValueError`
raised by the unpacking when the string has no `'/'`. -/
def rsplit1 : List Char → Option (List Char × List Char)
  | [] => none
  | c :: rest =>
    match rsplit1 rest with
    | some (a, b) => some (c :: a, b)
    | none => if c = '/' then some ([], rest) else none

/-- Python dict assignment `tags[tag] = v`: overwriting an existing key
keeps its position, a new key is appended. -/
def dictInsert (tags : List (String × TagRecord)) (k : String) (v : TagRecord) :
    List (String × TagRecord) :=
  if tags.any (fun p => p.1 == k) then
    tags.map (fun p => if p.1 == k then (k, v) else p)
  else tags ++ [(k, v)]

/-- One iteration of the ref loop in `get_recent_tags`.  The order follows
the source exactly: `get_object` runs before the `'tags' in key` filter;
then `rsplit`; then the `try: commit = obj.object` branch (`AttributeError`
caught only there); finally the record assignment, where reading
`commit.commit_time` off a non-commit raises an uncaught `AttributeError`. -/
def processRef (project : Repo) (tags : List (String × TagRecord))
    (key : String) (value : Nat) : Except RobotError (List (String × TagRecord)) :=
  match project.get_object value with
  | none => .error .keyError
  | some obj =>
    if hasSub "tags".data key.data = false then .ok tags
    else
      match rsplit1 key.data with
      | none => .error .valueError
      | some (_, tagName) =>
        match obj with
        | .tag t =>
          match project.get_object t.target with
          | none => .error .keyError
          | some (.commit c) =>
            .ok (dictInsert tags (String.mk tagName)
              ⟨c.commit_time, c.id, c.author, some (t.tag_time, t.id, t.name)⟩)
          | some _ => .error .attributeError
        | .commit c =>
          .ok (dictInsert tags (String.mk tagName)
            ⟨c.commit_time, c.id, c.author, none⟩)
        | _ => .error .attributeError

/-- The full ref loop of `get_recent_tags`, threading the `tags` dict. -/
def collectLoop (project : Repo) (tags : List (String × TagRecord)) :
    List (String × Nat) → Except RobotError (List (String × TagRecord))
  | [] => .ok tags
  | (key, value) :: rest =>
    match processRef project tags key value with
    | .error e => .error e
    | .ok tags' => collectLoop project tags' rest

/-- The sort relation of `sorted(..., key=lambda tag: tag[1][0],
reverse=True)`: `a` may come before `b` iff `b`'s time is not larger. -/
def descRel (a b : String × TagRecord) : Prop :=
  b.2.commit_time ≤ a.2.commit_time

instance : DecidableRel descRel :=
  fun a b => Int.decLe b.2.commit_time a.2.commit_time

instance : IsTotal (String × TagRecord) descRel :=
  ⟨fun a b => le_total b.2.commit_time a.2.commit_time⟩

instance : IsTrans (String × TagRecord) descRel :=
  ⟨fun _ _ _ h1 h2 => le_trans h2 h1⟩

/-- Python's stable descending sort of `tags.items()` (see the header for
why stable insertion sort realises `sorted(..., reverse=True)`). -/
def sortTags (tags : List (String × TagRecord)) : List (String × TagRecord) :=
  List.insertionSort descRel tags

/-- What dulwich's `Repo(projdir)` sees: `none` models the
`NotGitRepository` exception for an invalid path. -/
def GitWorld : Type :=
  String → Option Repo

/-- `get_recent_tags(projdir)`. -/
def get_recent_tags (world : GitWorld) (projdir : String) :
    Except RobotError (List (String × TagRecord)) :=
  match world projdir with
  | none => .error .notGitRepository
  | some project =>
    match collectLoop project [] project.refs with
    | .error e => .error e
    | .ok tags => .ok (sortTags tags)

/-- An arbitrary compiled regular expression, by its `re.match` behaviour:
`matchGroups s` is `none` when `re.match(pattern, s)` is `None`, otherwise
the capture groups `group(1), group(2), ...` (`none` for a group that did
not participate). -/
structure RegexModel where
  matchGroups : String → Option (List (Option String))

/-- The class `[ a-zA-Z_\-]` of the default pattern, by ASCII code:
space 32, `A`-`Z` 65-90, `a`-`z` 97-122, `_` 95, `-` 45. -/
def inLeadClass (c : Char) : Bool :=
  c.toNat == 32 || (65 ≤ c.toNat && c.toNat ≤ 90) ||
    (97 ≤ c.toNat && c.toNat ≤ 122) || c.toNat == 95 || c.toNat == 45

/-- The class `[\d\.]` of the default pattern: digits `0`-`9` 48-57 and
`.` 46. -/
def inVerStart (c : Char) : Bool :=
  (48 ≤ c.toNat && c.toNat ≤ 57) || c.toNat == 46

/-- The class `[\-\w\.]` of the default pattern: `-` 45, word characters
(digits, letters, `_` 95) and `.` 46. -/
def inVerTail (c : Char) : Bool :=
  c.toNat == 45 || (48 ≤ c.toNat && c.toNat ≤ 57) ||
    (65 ≤ c.toNat && c.toNat ≤ 90) || (97 ≤ c.toNat && c.toNat ≤ 122) ||
    c.toNat == 95 || c.toNat == 46

/-- `re.match` of the default `PATTERN = r'[ a-zA-Z_\-]*([\d\.]+[\-\w\.]*)'`,
returning group 1.  Since `inLeadClass` and `inVerStart` are disjoint, the
greedy-with-backtracking search collapses to: drop the maximal
`inLeadClass` run, require a non-empty maximal `inVerStart` run, append the
maximal `inVerTail` run (nothing follows the group, so no further
backtracking). -/
def matchDefault (s : List Char) : Option (List Char) :=
  if ((s.dropWhile inLeadClass).takeWhile inVerStart).isEmpty then none
  else
    some ((s.dropWhile inLeadClass).takeWhile inVerStart ++
      ((s.dropWhile inLeadClass).dropWhile inVerStart).takeWhile inVerTail)

/-- The module constant `PATTERN` as a `RegexModel`: one capture group,
present exactly when the match succeeds. -/
def PATTERN : RegexModel :=
  ⟨fun s => (matchDefault s.data).map (fun v => [some (String.mk v)])⟩

/-- `get_current_version(projdir, pattern, logger)`.  The result pairs the
Python return value (`none` is Python's `None`) with the list of events
sent to the logger. -/
def get_current_version (world : GitWorld) (projdir : String)
    (pattern : RegexModel) (logger : Bool) :
    Except RobotError (Option String × List LogEvent) :=
  match get_recent_tags world projdir with
  | .error e => .error e
  | .ok tags =>
    match tags with
    | [] => .ok (none, [])
    | (tag, _) :: _ =>
      match pattern.matchGroups tag with
      | none =>
        .ok (some tag, if logger then [.exception .attributeError] else [])
      | some groups =>
        match groups with
        | [] => .ok (some tag, if logger then [.exception .indexError] else [])
        | g :: _ => .ok (g, [])

/-- The filter `'tags' in key` as a predicate on the decoded ref name. -/
def isTagRef (key : String) : Bool :=
  hasSub "tags".data key.data

/-- The bare tag name: the part of the ref name after its last `'/'`.  The
fallback branch is unreachable in any successful collection (a tag-named
ref without `'/'` makes the unpacking raise `ValueError`). -/
def bareName (key : String) : String :=
  match rsplit1 key.data with
  | some (_, post) => String.mk post
  | none => key

/-- The record sub-lists with a given commit time, used to state that the
sort is stable. -/
def timeFilter (t : Int) (l : List (String × TagRecord)) :
    List (String × TagRecord) :=
  l.filter (fun p => p.2.commit_time == t)

/-- A commit used by the single-tag example repositories. -/
def oneCommit : GitObject :=
  .commit ⟨100, "c0ffee", "alice"⟩

/-- A repository with a single lightweight tag of the given name. -/
def oneTagRepo (name : String) : Repo :=
  ⟨[("refs/tags/" ++ name, 1)], [(1, oneCommit)]⟩

/-- A world containing just `oneTagRepo name`. -/
def oneTagWorld (name : String) : GitWorld :=
  fun _ => some (oneTagRepo name)

/-- A repository with no refs at all. -/
def emptyRepo : Repo :=
  ⟨[], []⟩

/-- A world containing just the empty repository. -/
def emptyWorld : GitWorld :=
  fun _ => some emptyRepo

/-- Three lightweight tags (two with equal commit time 5) and one branch. -/
def stableRepo : Repo :=
  ⟨[("refs/tags/a", 1), ("refs/tags/b", 2), ("refs/tags/c", 3),
    ("refs/heads/main", 4)],
   [(1, .commit ⟨5, "ca", "A"⟩), (2, .commit ⟨9, "cb", "B"⟩),
    (3, .commit ⟨5, "cc", "C"⟩), (4, .commit ⟨7, "cm", "M"⟩)]⟩

/-- A world containing just `stableRepo`. -/
def stableWorld : GitWorld :=
  fun _ => some stableRepo

/-- The tag records `stableRepo` accumulates, in encounter order. -/
def stableItems : List (String × TagRecord) :=
  [("a", ⟨5, "ca", "A", none⟩), ("b", ⟨9, "cb", "B", none⟩),
   ("c", ⟨5, "cc", "C", none⟩)]

/-- The sorted output for `stableRepo`: newest first, the time-5 tie in
encounter order. -/
def stableSorted : List (String × TagRecord) :=
  [("b", ⟨9, "cb", "B", none⟩), ("a", ⟨5, "ca", "A", none⟩),
   ("c", ⟨5, "cc", "C", none⟩)]

/-- One annotated tag (wrapping commit 2) and one lightweight tag. -/
def annRepo : Repo :=
  ⟨[("refs/tags/v1", 1), ("refs/tags/v2", 3)],
   [(1, .tag ⟨50, "t1", "v1", 2⟩), (2, .commit ⟨40, "c1", "A"⟩),
    (3, .commit ⟨60, "c2", "B"⟩)]⟩

/-- A tag ref pointing straight at a tree object. -/
def treeTagRepo : Repo :=
  ⟨[("refs/tags/broken", 5)], [(5, .tree "t5")]⟩

/-- A world containing just `treeTagRepo`. -/
def treeTagWorld : GitWorld :=
  fun _ => some treeTagRepo

/-- A tag ref whose SHA resolves to no object at all. -/
def danglingRepo : Repo :=
  ⟨[("refs/tags/ghost", 9)], []⟩

/-- A world containing just `danglingRepo`. -/
def danglingWorld : GitWorld :=
  fun _ => some danglingRepo

/-- Two resolvable tag refs sharing the bare name `v1`. -/
def dupRepo : Repo :=
  ⟨[("refs/tags/v1", 1), ("refs/remotes/up/tags/v1", 2)],
   [(1, .commit ⟨10, "c1", "A"⟩), (2, .commit ⟨20, "c2", "B"⟩)]⟩

/-- A world containing just `dupRepo`. -/
def dupWorld : GitWorld :=
  fun _ => some dupRepo

/-- A branch (not a tag) whose name contains the substring `tags`. -/
def branchTagsRepo : Repo :=
  ⟨[("refs/heads/tags-fix", 7)], [(7, .commit ⟨33, "cb", "Bo"⟩)]⟩

/-- Models the Python regex `v(\d*)` applied by `re.match`: a literal `v`
followed by a greedy, possibly empty digit run captured as group 1. -/
def vDigitsStar : RegexModel :=
  ⟨fun s =>
    match s.data with
    | c :: rest => if c = 'v' then some [some (String.mk (rest.takeWhile Char.isDigit))] else none
    | [] => none⟩

/-- Models any pattern that fails to match the subject, for example
`re.match(r'X(Y)', 'v0.3')`, which returns `None`. -/
def noMatchModel : RegexModel :=
  ⟨fun _ => none⟩

end ReleaseRobot

namespace ReleaseRobot

theorem takeWhile_all {α : Type} (p : α → Bool) (l : List α)
    (h : ∀ c ∈ l, p c = true) : l.takeWhile p = l := by
  induction l with
  | nil => rfl
  | cons x xs ih =>
    simp [List.takeWhile_cons, h x (by simp), ih (fun c hc => h c (by simp [hc]))]

theorem verStart_not_lead (c : Char) (h : inVerStart c = true) :
    inLeadClass c = false := by
  rw [Bool.eq_false_iff]
  intro hb
  simp only [inVerStart, inLeadClass, Bool.or_eq_true, Bool.and_eq_true,
    decide_eq_true_eq, beq_iff_eq] at h hb
  omega

theorem verStart_tail (c : Char) (h : inVerStart c = true) :
    inVerTail c = true := by
  simp only [inVerStart, inVerTail, Bool.or_eq_true, Bool.and_eq_true,
    decide_eq_true_eq, beq_iff_eq] at h ⊢
  omega

theorem matchDefault_shape (s v : List Char) (h : matchDefault s = some v) :
    ∃ d ds,
      v = d :: ds ∧ inVerStart d = true ∧ ∀ c ∈ v, inVerTail c = true := by
  unfold matchDefault at h
  by_cases he : (((s.dropWhile inLeadClass).takeWhile inVerStart).isEmpty : Bool) = true
  · rw [if_pos he] at h
    exact absurd h (by simp)
  · rw [if_neg he] at h
    have hv :
        (s.dropWhile inLeadClass).takeWhile inVerStart ++
          ((s.dropWhile inLeadClass).dropWhile inVerStart).takeWhile inVerTail = v :=
      Option.some.inj h
    rcases hd : (s.dropWhile inLeadClass).takeWhile inVerStart with _ | ⟨d, ds0⟩
    · rw [hd] at he
      exact absurd rfl he
    · refine ⟨d, ds0 ++ ((s.dropWhile inLeadClass).dropWhile inVerStart).takeWhile inVerTail,
        ?_, ?_, ?_⟩
      · rw [← hv, hd]
        simp
      · exact List.mem_takeWhile_imp (hd ▸ List.mem_cons_self d ds0)
      · intro c hc
        rw [← hv] at hc
        rcases List.mem_append.mp hc with hc | hc
        · exact verStart_tail c (List.mem_takeWhile_imp hc)
        · exact List.mem_takeWhile_imp hc

theorem matchDefault_idem (s v : List Char) (h : matchDefault s = some v) :
    matchDefault v = some v := by
  obtain ⟨d, ds, hv, hd, hall⟩ := matchDefault_shape s v h
  have h1 : v.dropWhile inLeadClass = v := by
    rw [hv, List.dropWhile_cons, verStart_not_lead d hd]
    simp
  have h2 : ∃ es, v.takeWhile inVerStart = d :: es := by
    rw [hv, List.takeWhile_cons, hd]
    exact ⟨_, rfl⟩
  obtain ⟨es, h2⟩ := h2
  have h3 : (v.dropWhile inVerStart).takeWhile inVerTail = v.dropWhile inVerStart :=
    takeWhile_all _ _ (fun c hc =>
      hall c ((List.dropWhile_sublist inVerStart).subset hc))
  unfold matchDefault
  rw [h1, h3, List.takeWhile_append_dropWhile, h2]
  simp

end ReleaseRobot

namespace ReleaseRobot

/-- C2: with the default pattern, `get_current_version` maps each of the
listed newest-tag names to the stated extracted version: the run of leading
letters, spaces, underscores and hyphens is stripped and the
digits-and-dotted-suffix group is returned. -/
theorem c2_default_pattern_examples :
    get_current_version (oneTagWorld "0.3") "." PATTERN false = .ok (some "0.3", []) ∧
    get_current_version (oneTagWorld "v0.3") "." PATTERN false = .ok (some "0.3", []) ∧
    get_current_version (oneTagWorld "release0.3") "." PATTERN false = .ok (some "0.3", []) ∧
    get_current_version (oneTagWorld "Release-0.3") "." PATTERN false = .ok (some "0.3", []) ∧
    get_current_version (oneTagWorld "v0.3rc1") "." PATTERN false = .ok (some "0.3rc1", []) ∧
    get_current_version (oneTagWorld "v0.3-rc.1") "." PATTERN false = .ok (some "0.3-rc.1", []) ∧
    get_current_version (oneTagWorld "version_0.3_rc_1") "." PATTERN false = .ok (some "0.3_rc_1", []) ∧
    get_current_version (oneTagWorld "v1") "." PATTERN false = .ok (some "1", []) :=
  ⟨rfl, rfl, rfl, rfl, rfl, rfl, rfl, rfl⟩

/-- C9: default-pattern extraction is idempotent: if the default pattern
extracts `v` from some tag name, then applied to `v` itself it extracts `v`
again unchanged. -/
theorem c9_default_idempotent (s v : String)
    (h : PATTERN.matchGroups s = some [some v]) :
    PATTERN.matchGroups v = some [some v] := by
  have hP : ∀ u : String, PATTERN.matchGroups u =
      (matchDefault u.data).map (fun w => [some (String.mk w)]) := fun _ => rfl
  rw [hP] at h
  cases hm : matchDefault s.data with
  | none =>
    rw [hm] at h
    simp at h
  | some w =>
    rw [hm] at h
    simp only [Option.map_some'] at h
    have hw : String.mk w = v := by
      have h1 := Option.some.inj h
      simpa using h1
    have hvd : v.data = w := by
      rw [← hw]
    rw [hP, hvd, matchDefault_idem s.data w hm, Option.map_some', hw]

/-- C9 witness: the theorem applied to the tag name "v0.3", from which the
default pattern extracts "0.3". -/
theorem c9_witness : PATTERN.matchGroups "0.3" = some [some "0.3"] :=
  c9_default_idempotent "v0.3" "0.3" rfl

/-- C5: when the repository has zero resolvable tags, `get_current_version`
returns the absence sentinel (Python `None`) with nothing logged, and no
error is raised. -/
theorem c5_no_tags_sentinel (world : GitWorld) (projdir : String)
    (pattern : RegexModel) (logger : Bool)
    (h : get_recent_tags world projdir = .ok []) :
    get_current_version world projdir pattern logger = .ok (none, []) := by
  simp [get_current_version, h]

/-- C5 witness: the empty repository. -/
theorem c5_witness :
    get_current_version emptyWorld "." PATTERN true = .ok (none, []) :=
  c5_no_tags_sentinel emptyWorld "." PATTERN true rfl

/-- C6: a path that does not reference a valid repository makes both
`get_recent_tags` and `get_current_version` fail with the
`NotGitRepository` error, unchanged, and no partial result is produced. -/
theorem c6_repo_not_found (world : GitWorld) (projdir : String)
    (pattern : RegexModel) (logger : Bool) (h : world projdir = none) :
    get_recent_tags world projdir = .error .notGitRepository ∧
    get_current_version world projdir pattern logger = .error .notGitRepository := by
  have h1 : get_recent_tags world projdir = .error .notGitRepository := by
    unfold get_recent_tags
    rw [h]
  exact ⟨h1, by simp [get_current_version, h1]⟩

/-- C6 witness: a world with no repository at any path. -/
theorem c6_witness :
    get_recent_tags (fun _ => none) "/nowhere" = .error .notGitRepository ∧
    get_current_version (fun _ => none) "/nowhere" PATTERN false =
      .error .notGitRepository :=
  c6_repo_not_found (fun _ => none) "/nowhere" PATTERN false rfl

end ReleaseRobot

namespace ReleaseRobot

theorem filter_orderedInsert (t : Int) (x : String × TagRecord)
    (l : List (String × TagRecord)) :
    (List.orderedInsert descRel x l).filter (fun p => p.2.commit_time == t) =
      if x.2.commit_time == t then
        x :: l.filter (fun p => p.2.commit_time == t)
      else l.filter (fun p => p.2.commit_time == t) := by
  induction l with
  | nil =>
    simp [List.orderedInsert, List.filter_cons]
  | cons y ys ih =>
    by_cases hr : descRel x y
    · rw [List.orderedInsert, if_pos hr]
      simp only [List.filter_cons]
    · rw [List.orderedInsert, if_neg hr]
      simp only [List.filter_cons, ih]
      by_cases hx : x.2.commit_time == t <;> by_cases hy : y.2.commit_time == t
      · exact absurd (show descRel x y by
          simp only [beq_iff_eq] at hx hy
          unfold descRel
          rw [hx, hy]) hr
      all_goals simp [hx, hy]

theorem filter_sortTags (t : Int) (l : List (String × TagRecord)) :
    timeFilter t (sortTags l) = timeFilter t l := by
  induction l with
  | nil => rfl
  | cons x xs ih =>
    simp only [sortTags, List.insertionSort, timeFilter] at *
    rw [filter_orderedInsert, List.filter_cons, ih]

/-- C1: the list returned by `get_recent_tags` is sorted by commit time
descending (each adjacent pair satisfies `time[i] >= time[i+1]`), and the
sort is stable: for every commit time, the records carrying it appear in
the same order as in the accumulated (encounter-ordered) tag dict. -/
theorem c1_sorted_descending_stable (world : GitWorld) (projdir : String)
    (project : Repo) (items l : List (String × TagRecord))
    (hw : world projdir = some project)
    (hc : collectLoop project [] project.refs = .ok items)
    (h : get_recent_tags world projdir = .ok l) :
    List.Chain' (fun a b => b.2.commit_time ≤ a.2.commit_time) l ∧
    ∀ t : Int, timeFilter t l = timeFilter t items := by
  have hl : l = sortTags items := by
    simp only [get_recent_tags, hw, hc] at h
    exact (Except.ok.inj h).symm
  subst hl
  exact ⟨(List.sorted_insertionSort descRel items).chain',
    fun t => filter_sortTags t items⟩

/-- C1 witness: `stableRepo` has tags with times 9, 5, 5; the output is
sorted descending and the time-5 tie keeps encounter order (a before c). -/
theorem c1_witness :
    List.Chain' (fun a b => b.2.commit_time ≤ a.2.commit_time) stableSorted ∧
    ∀ t : Int, timeFilter t stableSorted = timeFilter t stableItems :=
  c1_sorted_descending_stable stableWorld "." stableRepo stableItems
    stableSorted rfl rfl rfl

/-- C3 counterexample: a tag ref pointing straight at a tree aborts the
collection with `AttributeError`, and a tag ref whose SHA does not resolve
aborts it with `KeyError` - contradicting the claim that such references
are skipped silently and never abort the collection. -/
theorem c3_counterexample :
    get_recent_tags treeTagWorld "." = .error .attributeError ∧
    get_recent_tags danglingWorld "." = .error .keyError :=
  ⟨rfl, rfl⟩

/-- C3 (amended): such references are not skipped: a reference whose object
resolution fails raises `KeyError`, and a tag-named reference whose target
is not ultimately a commit (e.g. a tree) raises `AttributeError`; either
exception aborts the whole collection. -/
theorem c3_amended_abort (project : Repo) (tags : List (String × TagRecord))
    (key : String) (value : Nat) (rest : List (String × Nat)) :
    (project.get_object value = none →
      collectLoop project tags ((key, value) :: rest) = .error .keyError) ∧
    (∀ tid pre post, project.get_object value = some (.tree tid) →
      isTagRef key = true → rsplit1 key.data = some (pre, post) →
      collectLoop project tags ((key, value) :: rest) = .error .attributeError) := by
  constructor
  · intro h
    simp [collectLoop, processRef, h]
  · intro tid pre post h ht hs
    have ht' : hasSub "tags".data key.data = true := ht
    simp [collectLoop, processRef, h, ht', hs]

/-- C3 witness: the amended theorem applied to the dangling-SHA tag ref and
to the tree-targeting tag ref. -/
theorem c3_witness :
    collectLoop danglingRepo [] [("refs/tags/ghost", 9)] = .error .keyError ∧
    collectLoop treeTagRepo [] [("refs/tags/broken", 5)] = .error .attributeError :=
  ⟨(c3_amended_abort danglingRepo [] "refs/tags/ghost" 9 []).1 rfl,
   (c3_amended_abort treeTagRepo [] "refs/tags/broken" 5 []).2 "t5"
     "refs/tags".data "broken".data rfl rfl rfl⟩

/-- C7: a processed tag ref produces a record whose `tag_meta` field is
non-null (the tag time, tag id and tag name) exactly when the ref resolves
to an annotated tag object wrapping a commit; a lightweight tag ref
(pointing straight at a commit) produces a record with null `tag_meta`. -/
theorem c7_tag_meta_iff_annotated (project : Repo)
    (tags : List (String × TagRecord)) (key : String) (value : Nat)
    (pre post : List Char) (hk : isTagRef key = true)
    (hs : rsplit1 key.data = some (pre, post)) :
    (∀ c, project.get_object value = some (.commit c) →
      processRef project tags key value =
        .ok (dictInsert tags (String.mk post)
          ⟨c.commit_time, c.id, c.author, none⟩)) ∧
    (∀ t c, project.get_object value = some (.tag t) →
      project.get_object t.target = some (.commit c) →
      processRef project tags key value =
        .ok (dictInsert tags (String.mk post)
          ⟨c.commit_time, c.id, c.author, some (t.tag_time, t.id, t.name)⟩)) := by
  have hk' : hasSub "tags".data key.data = true := hk
  constructor
  · intro c h
    simp [processRef, h, hk', hs]
  · intro t c h h2
    simp [processRef, h, h2, hk', hs]

/-- C7 witness: in `annRepo`, the annotated tag `v1` yields `tag_meta`
`(50, "t1", "v1")` and the lightweight tag `v2` yields `tag_meta` null. -/
theorem c7_witness :
    processRef annRepo [] "refs/tags/v1" 1 =
      .ok [("v1", ⟨40, "c1", "A", some (50, "t1", "v1")⟩)] ∧
    processRef annRepo [] "refs/tags/v2" 3 =
      .ok [("v2", ⟨60, "c2", "B", none⟩)] :=
  ⟨(c7_tag_meta_iff_annotated annRepo [] "refs/tags/v1" 1
      "refs/tags".data "v1".data rfl rfl).2 ⟨50, "t1", "v1", 2⟩ ⟨40, "c1", "A"⟩ rfl rfl,
   (c7_tag_meta_iff_annotated annRepo [] "refs/tags/v2" 3
      "refs/tags".data "v2".data rfl rfl).1 ⟨60, "c2", "B"⟩ rfl⟩

/-- C10: for a reference whose object resolves, the tag test is a substring
test on the whole decoded ref name: a name without the substring `tags` is
skipped, and a name containing it anywhere (branches such as
`refs/heads/tags-fix` included) is processed as a tag, the recorded bare
name being the portion of the ref name after its last `/`. -/
theorem c10_substring_filter (project : Repo)
    (tags : List (String × TagRecord)) (key : String) (value : Nat)
    (obj : GitObject) (hobj : project.get_object value = some obj) :
    (isTagRef key = false → processRef project tags key value = .ok tags) ∧
    (isTagRef key = true →
      ∀ res, processRef project tags key value = .ok res →
        ∃ pre post rec, rsplit1 key.data = some (pre, post) ∧
          res = dictInsert tags (String.mk post) rec) := by
  constructor
  · intro h
    have h' : hasSub "tags".data key.data = false := h
    simp [processRef, hobj, h']
  · intro h res hres
    have h' : hasSub "tags".data key.data = true := h
    rcases hsp : rsplit1 key.data with _ | ⟨pre, post⟩
    · simp [processRef, hobj, h', hsp] at hres
    · cases obj with
      | commit c =>
        simp [processRef, hobj, h', hsp] at hres
        exact ⟨pre, post, ⟨c.commit_time, c.id, c.author, none⟩, rfl, hres.symm⟩
      | tag t =>
        rcases hobj2 : project.get_object t.target with _ | obj2
        · simp [processRef, hobj, h', hsp, hobj2] at hres
        · cases obj2 with
          | commit c =>
            simp [processRef, hobj, h', hsp, hobj2] at hres
            exact ⟨pre, post,
              ⟨c.commit_time, c.id, c.author, some (t.tag_time, t.id, t.name)⟩,
              rfl, hres.symm⟩
          | tag t2 => simp [processRef, hobj, h', hsp, hobj2] at hres
          | tree i => simp [processRef, hobj, h', hsp, hobj2] at hres
          | blob i => simp [processRef, hobj, h', hsp, hobj2] at hres
      | tree i => simp [processRef, hobj, h', hsp] at hres
      | blob i => simp [processRef, hobj, h', hsp] at hres

/-- C10 witness: a branch named `refs/heads/main` is skipped, while the
branch `refs/heads/tags-fix` (substring `tags`, though not a tag) is
processed and recorded under the bare name `tags-fix`. -/
theorem c10_witness :
    processRef branchTagsRepo [] "refs/heads/main" 7 = .ok [] ∧
    ∃ pre post rec, rsplit1 "refs/heads/tags-fix".data = some (pre, post) ∧
      [("tags-fix", (⟨33, "cb", "Bo", none⟩ : TagRecord))] =
        dictInsert [] (String.mk post) rec :=
  ⟨(c10_substring_filter branchTagsRepo [] "refs/heads/main" 7
      (.commit ⟨33, "cb", "Bo"⟩) rfl).1 rfl,
   (c10_substring_filter branchTagsRepo [] "refs/heads/tags-fix" 7
      (.commit ⟨33, "cb", "Bo"⟩) rfl).2 rfl
     [("tags-fix", ⟨33, "cb", "Bo", none⟩)] rfl⟩

end ReleaseRobot

namespace ReleaseRobot

/-- C4 counterexample: with the pattern `v(\d*)` and newest tag `vx`, the
prefix match succeeds and group 1 captures the empty string; the code
returns the empty string and logs nothing, instead of reporting to the sink
and returning the raw tag name `vx` as the claim requires. -/
theorem c4_counterexample :
    get_current_version (oneTagWorld "vx") "." vDigitsStar true =
      .ok (some "", []) ∧
    get_current_version (oneTagWorld "vx") "." vDigitsStar true ≠
      .ok (some "vx", [.exception .indexError]) ∧
    get_current_version (oneTagWorld "vx") "." vDigitsStar true ≠
      .ok (some "vx", [.exception .attributeError]) :=
  ⟨rfl, by intro h; exact absurd (Option.some.inj (Prod.mk.inj
      (Except.ok.inj h)).1) (by simp),
    by intro h; exact absurd (Option.some.inj (Prod.mk.inj
      (Except.ok.inj h)).1) (by simp)⟩

/-- C4 (amended): when the match fails, or group 1 is absent, the caught
exception is reported to the sink exactly when one is provided and the raw
unmodified tag name is returned; a group that captures the empty string is,
by contrast, returned as the empty string, with no report and no fallback. -/
theorem c4_amended_fallback (world : GitWorld) (projdir : String)
    (pattern : RegexModel) (logger : Bool) (tag : String) (rec : TagRecord)
    (rest : List (String × TagRecord))
    (h : get_recent_tags world projdir = .ok ((tag, rec) :: rest)) :
    (pattern.matchGroups tag = none →
      get_current_version world projdir pattern logger =
        .ok (some tag, if logger then [.exception .attributeError] else [])) ∧
    (pattern.matchGroups tag = some [] →
      get_current_version world projdir pattern logger =
        .ok (some tag, if logger then [.exception .indexError] else [])) ∧
    (∀ groups, pattern.matchGroups tag = some (some "" :: groups) →
      get_current_version world projdir pattern logger = .ok (some "", [])) := by
  refine ⟨fun hm => ?_, fun hm => ?_, fun groups hm => ?_⟩ <;>
    simp [get_current_version, h, hm]

/-- C4 witness: the amended theorem applied to a failing pattern with a
sink provided: the exception is logged and the raw tag name comes back. -/
theorem c4_witness :
    get_current_version (oneTagWorld "v0.3") "." noMatchModel true =
      .ok (some "v0.3", [.exception .attributeError]) :=
  (c4_amended_fallback (oneTagWorld "v0.3") "." noMatchModel true "v0.3"
    ⟨100, "c0ffee", "alice", none⟩ [] rfl).1 rfl

/-- C8 counterexample: `dupRepo` has two resolvable tag references, both
with bare name `v1`; the collection returns a single record (the later ref
overwrote the earlier one), not one record per resolvable tag reference. -/
theorem c8_counterexample :
    get_recent_tags dupWorld "." = .ok [("v1", ⟨20, "c2", "B", none⟩)] ∧
    dupRepo.refs.length = 2 :=
  ⟨rfl, rfl⟩

theorem dictInsert_fresh (tags : List (String × TagRecord)) (k : String)
    (v : TagRecord) (h : ∀ p ∈ tags, p.1 ≠ k) :
    dictInsert tags k v = tags ++ [(k, v)] := by
  have ha : tags.any (fun p => p.1 == k) = false := by
    simp only [List.any_eq_false, beq_iff_eq]
    exact h
  simp [dictInsert, ha]

theorem processRef_skip (project : Repo) (tags : List (String × TagRecord))
    (key : String) (value : Nat) (res : List (String × TagRecord))
    (h : processRef project tags key value = .ok res)
    (ht : isTagRef key = false) : res = tags := by
  have ht' : hasSub "tags".data key.data = false := ht
  rcases ho : project.get_object value with _ | obj
  · simp [processRef, ho] at h
  · simp [processRef, ho, ht'] at h
    exact h.symm

theorem processRef_insert (project : Repo) (tags : List (String × TagRecord))
    (key : String) (value : Nat) (res : List (String × TagRecord))
    (h : processRef project tags key value = .ok res)
    (ht : isTagRef key = true) :
    ∃ rec, res = dictInsert tags (bareName key) rec := by
  have ht' : hasSub "tags".data key.data = true := ht
  rcases ho : project.get_object value with _ | obj
  · simp [processRef, ho] at h
  · rcases hsp : rsplit1 key.data with _ | ⟨pre, post⟩
    · simp [processRef, ho, ht', hsp] at h
    · have hb : bareName key = String.mk post := by
        simp [bareName, hsp]
      cases obj with
      | commit c =>
        simp [processRef, ho, ht', hsp] at h
        exact ⟨_, hb ▸ h.symm⟩
      | tag t =>
        rcases ho2 : project.get_object t.target with _ | obj2
        · simp [processRef, ho, ht', hsp, ho2] at h
        · cases obj2 with
          | commit c =>
            simp [processRef, ho, ht', hsp, ho2] at h
            exact ⟨_, hb ▸ h.symm⟩
          | tag t2 => simp [processRef, ho, ht', hsp, ho2] at h
          | tree i => simp [processRef, ho, ht', hsp, ho2] at h
          | blob i => simp [processRef, ho, ht', hsp, ho2] at h
      | tree i => simp [processRef, ho, ht', hsp] at h
      | blob i => simp [processRef, ho, ht', hsp] at h

theorem collectLoop_count (project : Repo) :
    ∀ (refs : List (String × Nat)) (acc res : List (String × TagRecord)),
      collectLoop project acc refs = .ok res →
      (acc.map Prod.fst ++
        (refs.filter (fun p => isTagRef p.1)).map (fun p => bareName p.1)).Nodup →
      res.length = acc.length + refs.countP (fun p => isTagRef p.1) := by
  intro refs
  induction refs with
  | nil =>
    intro acc res h _
    simp only [collectLoop] at h
    simp [Except.ok.inj h]
  | cons kv rest ih =>
    intro acc res h hnd
    obtain ⟨key, value⟩ := kv
    rcases hp : processRef project acc key value with e | acc'
    · simp only [collectLoop, hp] at h
      exact absurd h (by simp)
    · simp only [collectLoop, hp] at h
      by_cases ht : isTagRef key
      · obtain ⟨rec, hrec⟩ := processRef_insert project acc key value acc' hp ht
        simp only [List.filter_cons, ht, if_pos, List.map_cons] at hnd
        rw [List.nodup_append] at hnd
        obtain ⟨hnd1, hnd2, hdisj⟩ := hnd
        have hfresh : ∀ p ∈ acc, p.1 ≠ bareName key := by
          intro p hp1 hpe
          exact hdisj (List.mem_map_of_mem Prod.fst hp1)
            (hpe ▸ List.mem_cons_self _ _)
        have hacc' : acc' = acc ++ [(bareName key, rec)] := by
          rw [hrec]
          exact dictInsert_fresh acc (bareName key) rec hfresh
        have hnd' : ((acc ++ [(bareName key, rec)]).map Prod.fst ++
            (rest.filter (fun p => isTagRef p.1)).map (fun p => bareName p.1)).Nodup := by
          rw [List.map_append, List.append_assoc]
          rw [List.nodup_append]
          refine ⟨hnd1, ?_, ?_⟩
          · simpa using hnd2
          · intro a ha1 ha2
            exact hdisj ha1 (by simpa using ha2)
        have := ih acc' res h (hacc' ▸ hnd')
        rw [this, hacc']
        simp [List.countP_cons, ht]
        omega
      · have hacc' : acc' = acc := processRef_skip project acc key value acc' hp
          (by simpa using ht)
        rw [hacc'] at h
        have hnd' : (acc.map Prod.fst ++
            (rest.filter (fun p => isTagRef p.1)).map (fun p => bareName p.1)).Nodup := by
          simpa [List.filter_cons, ht] using hnd
        rw [ih acc res h hnd']
        simp [List.countP_cons, ht]

/-- C8 (amended): the collection returns one record per distinct bare tag
name: whenever the bare names of the tag-named references are pairwise
distinct, `get_recent_tags` returns exactly one record per tag-named
(hence, in a successful run, resolvable) reference; references sharing a
bare name collapse to a single record, the later overwriting the earlier. -/
theorem c8_amended_count (world : GitWorld) (projdir : String)
    (project : Repo) (l : List (String × TagRecord))
    (hw : world projdir = some project)
    (hnodup : ((project.refs.filter (fun p => isTagRef p.1)).map
      (fun p => bareName p.1)).Nodup)
    (h : get_recent_tags world projdir = .ok l) :
    l.length = project.refs.countP (fun p => isTagRef p.1) := by
  rcases hc : collectLoop project [] project.refs with e | items
  · simp only [get_recent_tags, hw, hc] at h
    exact absurd h (by simp)
  · simp only [get_recent_tags, hw, hc] at h
    have hl : l = sortTags items := (Except.ok.inj h).symm
    have hlen := collectLoop_count project project.refs [] items hc
      (by simpa using hnodup)
    have hperm := List.perm_insertionSort descRel items
    rw [hl]
    rw [show (sortTags items).length = items.length from hperm.length_eq]
    simpa using hlen

/-- C8 witness: `stableRepo` has three tag refs with distinct bare names
and one branch; the sorted output has exactly three records. -/
theorem c8_witness :
    stableSorted.length = stableRepo.refs.countP (fun p => isTagRef p.1) :=
  c8_amended_count stableWorld "." stableRepo stableSorted rfl (by decide) rfl

end ReleaseRobot
